import Mathlib

/-!
Verification development for the approve-controller repository.

The repository implements a human-in-the-loop approval gate for Kubernetes
NetworkPolicy objects:

* a validating admission webhook (`internal/webhook/v1`) computes a
  SHA-256 fingerprint of the policy (`generateNetworkPolicyHash`), looks up
  an approval Secret, and allows or denies
  (`validateNetworkPolicyApproval`, `checkForApprovedCertificate`,
  `createApprovalCSR`);
* a controller (`internal/controller/certificatesigningrequest_controller.go`)
  materializes approval Secrets from approved CertificateSigningRequests
  (`Reconcile`) and garbage-collects orphaned Secrets
  (`cleanupOrphanedSecrets`).

This file is a shallow embedding of that code: Go structures become Lean
structures, the Kubernetes API store becomes an explicit `Cluster` value
threaded through the operations, and each function below is translated
line by line from the Go source it is named after.
-/

/-! ## Canonical JSON values

`generateNetworkPolicyHash` serializes a `NetworkPolicyData` value with
Go's `encoding/json` and hashes the bytes.  We model the JSON documents
produced by that marshaller.  The Go values in play contain only strings,
string maps, slices, structs and nil-able pointers, so `null`, strings,
arrays and objects suffice.  (Numeric ports are `IntOrString` values in
the Kubernetes API; we model them in their string form.)
-/

mutual

inductive Json where
  | null : Json
  | str : String → Json
  | arr : JsonArr → Json
  | obj : JsonObj → Json
deriving DecidableEq, Repr

/-- A JSON array, as its own inductive so that mutual structural
recursion and induction over documents stay primitive. -/
inductive JsonArr where
  | nil : JsonArr
  | cons : Json → JsonArr → JsonArr
deriving DecidableEq, Repr

/-- A JSON object: an ordered list of key/value fields. -/
inductive JsonObj where
  | nil : JsonObj
  | cons : String → Json → JsonObj → JsonObj
deriving DecidableEq, Repr

end

/-- JSON string escaping of a single character: quote and backslash get a
backslash prefix, everything else passes through. -/
def escChar (c : Char) : List Char :=
  if c = '"' ∨ c = '\\' then ['\\', c] else [c]

/-- JSON string escaping of character lists. -/
def escStr : List Char → List Char
  | [] => []
  | c :: cs => escChar c ++ escStr cs

mutual

/-- Rendering of a JSON document to its byte (character) sequence, in the
style of Go's `encoding/json`: no extraneous whitespace, fields in the
order they occur in the document. -/
def renderJson : Json → List Char
  | .null => ['n', 'u', 'l', 'l']
  | .str s => '"' :: (escStr s.data ++ ['"'])
  | .arr l => '[' :: (renderArr l ++ [']'])
  | .obj o => '{' :: (renderObj o ++ ['}'])
termination_by structural j => j

/-- Rendering of array elements, comma separated: the first element
followed by the comma-prefixed rest. -/
def renderArr : JsonArr → List Char
  | .nil => []
  | .cons j tl => renderJson j ++ renderArrTail tl
termination_by structural l => l

/-- The comma-prefixed non-first elements of a rendered array. -/
def renderArrTail : JsonArr → List Char
  | .nil => []
  | .cons j tl => ',' :: (renderJson j ++ renderArrTail tl)
termination_by structural l => l

/-- Rendering of object fields, comma separated, each `"key":value`. -/
def renderObj : JsonObj → List Char
  | .nil => []
  | .cons k v tl => '"' :: (escStr k.data ++ '"' :: ':' :: (renderJson v ++ renderObjTail tl))
termination_by structural o => o

/-- The comma-prefixed non-first fields of a rendered object. -/
def renderObjTail : JsonObj → List Char
  | .nil => []
  | .cons k v tl =>
      ',' :: '"' :: (escStr k.data ++ '"' :: ':' :: (renderJson v ++ renderObjTail tl))
termination_by structural o => o

end

theorem renderJson_sanity :
    renderJson (.obj (.cons "a" (.str "x") (.cons "b" (.arr (.cons .null .nil)) .nil)))
      = "\x7b\"a\":\"x\",\"b\":[null]\x7d".data := by decide

/-- The rendered document as a string. -/
def renderJsonStr (j : Json) : String := String.mk (renderJson j)

/-! ### Injectivity of the canonical rendering

The spec's fingerprint contract (§3) is that fingerprints coincide exactly
when the canonical serializations coincide, so we prove the renderer is
injective — in fact prefix-injective: a rendered document followed by
arbitrary trailing bytes determines both the document and the trailing
bytes. -/

/-- The first character of a rendered document, determined by its
constructor. -/
def jsonHead : Json → Char
  | .null => 'n'
  | .str _ => '"'
  | .arr _ => '['
  | .obj _ => '{'

theorem renderJson_head (j : Json) : ∃ cs, renderJson j = jsonHead j :: cs := by
  cases j <;> simp only [renderJson, jsonHead] <;> exact ⟨_, rfl⟩

theorem escStr_quote_inj :
    ∀ (a b r1 r2 : List Char),
      escStr a ++ '"' :: r1 = escStr b ++ '"' :: r2 → a = b ∧ r1 = r2 := by
  intro a
  induction a with
  | nil =>
    intro b r1 r2 h
    cases b with
    | nil => simpa using h
    | cons d ds =>
      exfalso
      by_cases hd : d = '"' ∨ d = '\\'
      · simp [escStr, escChar, hd] at h
      · simp only [escStr, escChar, if_neg hd, List.cons_append, List.nil_append,
          List.cons.injEq] at h
        exact hd (Or.inl h.1.symm)
  | cons c cs ih =>
    intro b r1 r2 h
    cases b with
    | nil =>
      exfalso
      by_cases hc : c = '"' ∨ c = '\\'
      · simp [escStr, escChar, hc] at h
      · simp only [escStr, escChar, if_neg hc, List.cons_append, List.nil_append,
          List.cons.injEq] at h
        exact hc (Or.inl h.1)
    | cons d ds =>
      by_cases hc : c = '"' ∨ c = '\\' <;> by_cases hd : d = '"' ∨ d = '\\'
      · simp only [escStr, escChar, if_pos hc, if_pos hd, List.cons_append,
          List.append_assoc, List.cons.injEq] at h
        obtain ⟨-, hcd, h'⟩ := h
        obtain ⟨hb, hr⟩ := ih ds r1 r2 (by simpa using h')
        exact ⟨by rw [hcd, hb], hr⟩
      · exfalso
        simp only [escStr, escChar, if_pos hc, if_neg hd, List.cons_append,
          List.cons.injEq] at h
        exact hd (Or.inr h.1.symm)
      · exfalso
        simp only [escStr, escChar, if_neg hc, if_pos hd, List.cons_append,
          List.cons.injEq] at h
        exact hc (Or.inr h.1)
      · simp only [escStr, escChar, if_neg hc, if_neg hd, List.cons_append,
          List.cons.injEq] at h
        obtain ⟨hcd, h'⟩ := h
        obtain ⟨hb, hr⟩ := ih ds r1 r2 (by simpa using h')
        exact ⟨by rw [hcd, hb], hr⟩

theorem jsonHead_not_delim (j : Json) :
    jsonHead j ≠ ']' ∧ jsonHead j ≠ ',' ∧ jsonHead j ≠ '}' := by
  cases j <;> simp only [jsonHead] <;> exact ⟨by decide, by decide, by decide⟩

mutual

theorem renderJson_pre :
    ∀ (j1 j2 : Json) (r1 r2 : List Char),
      renderJson j1 ++ r1 = renderJson j2 ++ r2 → j1 = j2 ∧ r1 = r2
  | .null, .null, r1, r2 => by
    intro h
    simp only [renderJson] at h
    exact ⟨rfl, by simpa using h⟩
  | .null, .str _, _, _ => by intro h; simp [renderJson] at h
  | .null, .arr _, _, _ => by intro h; simp [renderJson] at h
  | .null, .obj _, _, _ => by intro h; simp [renderJson] at h
  | .str _, .null, _, _ => by intro h; simp [renderJson] at h
  | .str s1, .str s2, r1, r2 => by
    intro h
    simp only [renderJson, List.cons_append, List.append_assoc, List.singleton_append,
      List.cons.injEq, true_and] at h
    obtain ⟨hs, hr⟩ := escStr_quote_inj _ _ _ _ h
    have hs' : s1 = s2 := congrArg String.mk hs
    exact ⟨by rw [hs'], hr⟩
  | .str _, .arr _, _, _ => by intro h; simp [renderJson] at h
  | .str _, .obj _, _, _ => by intro h; simp [renderJson] at h
  | .arr _, .null, _, _ => by intro h; simp [renderJson] at h
  | .arr _, .str _, _, _ => by intro h; simp [renderJson] at h
  | .arr l1, .arr l2, r1, r2 => by
    intro h
    simp only [renderJson, List.cons_append, List.append_assoc, List.singleton_append,
      List.cons.injEq, true_and] at h
    obtain ⟨hl, hr⟩ := renderArr_pre l1 l2 r1 r2 h
    exact ⟨by rw [hl], hr⟩
  | .arr _, .obj _, _, _ => by intro h; simp [renderJson] at h
  | .obj _, .null, _, _ => by intro h; simp [renderJson] at h
  | .obj _, .str _, _, _ => by intro h; simp [renderJson] at h
  | .obj _, .arr _, _, _ => by intro h; simp [renderJson] at h
  | .obj o1, .obj o2, r1, r2 => by
    intro h
    simp only [renderJson, List.cons_append, List.append_assoc, List.singleton_append,
      List.cons.injEq, true_and] at h
    obtain ⟨ho, hr⟩ := renderObj_pre o1 o2 r1 r2 h
    exact ⟨by rw [ho], hr⟩

theorem renderArr_pre :
    ∀ (l1 l2 : JsonArr) (r1 r2 : List Char),
      renderArr l1 ++ ']' :: r1 = renderArr l2 ++ ']' :: r2 → l1 = l2 ∧ r1 = r2
  | .nil, .nil, r1, r2 => by
    intro h
    simp only [renderArr, List.nil_append, List.cons.injEq, true_and] at h
    exact ⟨rfl, h⟩
  | .nil, .cons j tl, r1, r2 => by
    intro h
    exfalso
    simp only [renderArr, List.nil_append, List.append_assoc] at h
    obtain ⟨cs, hcs⟩ := renderJson_head j
    rw [hcs] at h
    simp only [List.cons_append, List.cons.injEq] at h
    exact (jsonHead_not_delim j).1 h.1.symm
  | .cons j tl, .nil, r1, r2 => by
    intro h
    exfalso
    simp only [renderArr, List.nil_append, List.append_assoc] at h
    obtain ⟨cs, hcs⟩ := renderJson_head j
    rw [hcs] at h
    simp only [List.cons_append, List.cons.injEq] at h
    exact (jsonHead_not_delim j).1 h.1
  | .cons j1 tl1, .cons j2 tl2, r1, r2 => by
    intro h
    simp only [renderArr, List.append_assoc] at h
    obtain ⟨hj, ht⟩ := renderJson_pre j1 j2 _ _ h
    obtain ⟨hl, hr⟩ := renderArrTail_pre tl1 tl2 r1 r2 ht
    exact ⟨by rw [hj, hl], hr⟩

theorem renderArrTail_pre :
    ∀ (l1 l2 : JsonArr) (r1 r2 : List Char),
      renderArrTail l1 ++ ']' :: r1 = renderArrTail l2 ++ ']' :: r2 → l1 = l2 ∧ r1 = r2
  | .nil, .nil, r1, r2 => by
    intro h
    simp only [renderArrTail, List.nil_append, List.cons.injEq, true_and] at h
    exact ⟨rfl, h⟩
  | .nil, .cons j tl, r1, r2 => by
    intro h
    simp [renderArrTail] at h
  | .cons j tl, .nil, r1, r2 => by
    intro h
    simp [renderArrTail] at h
  | .cons j1 tl1, .cons j2 tl2, r1, r2 => by
    intro h
    simp only [renderArrTail, List.cons_append, List.append_assoc, List.cons.injEq,
      true_and] at h
    obtain ⟨hj, ht⟩ := renderJson_pre j1 j2 _ _ h
    obtain ⟨hl, hr⟩ := renderArrTail_pre tl1 tl2 r1 r2 ht
    exact ⟨by rw [hj, hl], hr⟩

theorem renderObj_pre :
    ∀ (o1 o2 : JsonObj) (r1 r2 : List Char),
      renderObj o1 ++ '}' :: r1 = renderObj o2 ++ '}' :: r2 → o1 = o2 ∧ r1 = r2
  | .nil, .nil, r1, r2 => by
    intro h
    simp only [renderObj, List.nil_append, List.cons.injEq, true_and] at h
    exact ⟨rfl, h⟩
  | .nil, .cons k v tl, r1, r2 => by
    intro h
    simp only [renderObj, List.nil_append, List.cons_append, List.cons.injEq] at h
    exact absurd h.1 (by decide)
  | .cons k v tl, .nil, r1, r2 => by
    intro h
    simp only [renderObj, List.nil_append, List.cons_append, List.cons.injEq] at h
    exact absurd h.1 (by decide)
  | .cons k1 v1 tl1, .cons k2 v2 tl2, r1, r2 => by
    intro h
    simp only [renderObj, List.cons_append, List.append_assoc, List.cons.injEq,
      true_and] at h
    obtain ⟨hk, hrest⟩ := escStr_quote_inj _ _ _ _ h
    simp only [List.cons.injEq, true_and] at hrest
    obtain ⟨hv, ht⟩ := renderJson_pre v1 v2 _ _ hrest
    have hkey : k1 = k2 := congrArg String.mk hk
    obtain ⟨ho, hr⟩ := renderObjTail_pre tl1 tl2 r1 r2 ht
    exact ⟨by rw [hkey, hv, ho], hr⟩

theorem renderObjTail_pre :
    ∀ (o1 o2 : JsonObj) (r1 r2 : List Char),
      renderObjTail o1 ++ '}' :: r1 = renderObjTail o2 ++ '}' :: r2 → o1 = o2 ∧ r1 = r2
  | .nil, .nil, r1, r2 => by
    intro h
    simp only [renderObjTail, List.nil_append, List.cons.injEq, true_and] at h
    exact ⟨rfl, h⟩
  | .nil, .cons k v tl, r1, r2 => by
    intro h
    simp [renderObjTail] at h
  | .cons k v tl, .nil, r1, r2 => by
    intro h
    simp [renderObjTail] at h
  | .cons k1 v1 tl1, .cons k2 v2 tl2, r1, r2 => by
    intro h
    simp only [renderObjTail, List.cons_append, List.append_assoc, List.cons.injEq,
      true_and] at h
    obtain ⟨hk, hrest⟩ := escStr_quote_inj _ _ _ _ h
    simp only [List.cons.injEq, true_and] at hrest
    obtain ⟨hv, ht⟩ := renderJson_pre v1 v2 _ _ hrest
    have hkey : k1 = k2 := congrArg String.mk hk
    obtain ⟨ho, hr⟩ := renderObjTail_pre tl1 tl2 r1 r2 ht
    exact ⟨by rw [hkey, hv, ho], hr⟩

end
/-- Injectivity of the canonical rendering on full documents. -/
theorem renderJsonStr_inj (j1 j2 : Json) (h : renderJsonStr j1 = renderJsonStr j2) :
    j1 = j2 := by
  unfold renderJsonStr at h
  injection h with h
  exact (renderJson_pre j1 j2 [] [] (by simpa using h)).1

/-! ## The NetworkPolicy data model

`networkingv1.NetworkPolicy` and its spec are external library types
(`k8s.io/api`).  We model the parts the repository serializes: identity
(name/namespace), metadata maps, and the structured spec.  Go string maps
are modelled as key-ordered association lists; `IntOrString` ports and
numeric `endPort` values are modelled in their string form (both are
serialized to JSON scalars). -/

structure LabelSelectorRequirement where
  key : String
  operator : String
  values : List String
deriving DecidableEq, Repr

structure LabelSelector where
  matchLabels : List (String × String)
  matchExpressions : List LabelSelectorRequirement
deriving DecidableEq, Repr

structure IPBlock where
  cidr : String
  except : List String
deriving DecidableEq, Repr

structure NetworkPolicyPeer where
  podSelector : Option LabelSelector
  namespaceSelector : Option LabelSelector
  ipBlock : Option IPBlock
deriving DecidableEq, Repr

structure NetworkPolicyPort where
  protocol : Option String
  port : Option String
  endPort : Option String
deriving DecidableEq, Repr

structure NetworkPolicyIngressRule where
  ports : List NetworkPolicyPort
  «from» : List NetworkPolicyPeer
deriving DecidableEq, Repr

structure NetworkPolicyEgressRule where
  ports : List NetworkPolicyPort
  «to» : List NetworkPolicyPeer
deriving DecidableEq, Repr

structure NetworkPolicySpec where
  podSelector : LabelSelector
  ingress : List NetworkPolicyIngressRule
  egress : List NetworkPolicyEgressRule
  policyTypes : List String
deriving DecidableEq, Repr

/-- A NetworkPolicy object as the webhook sees it: identity, metadata
maps, and the gated spec. -/
structure NetworkPolicy where
  name : String
  «namespace» : String
  labels : List (String × String)
  annotations : List (String × String)
  spec : NetworkPolicySpec
deriving DecidableEq, Repr

/-! ## JSON encoding of the hashed data

Mirrors what Go's `encoding/json` produces for the `NetworkPolicyData`
struct in `internal/webhook/v1` (`{"name":…,"namespace":…,"spec":…}`),
with the k8s JSON tags of each nested field. -/

def jarr : List Json → JsonArr
  | [] => .nil
  | j :: js => .cons j (jarr js)

def jobjOfMap : List (String × String) → JsonObj
  | [] => .nil
  | (k, v) :: tl => .cons k (.str v) (jobjOfMap tl)

def jmap (m : List (String × String)) : Json := .obj (jobjOfMap m)

def jstrArr (l : List String) : Json := .arr (jarr (l.map .str))

def jopt {α : Type} (f : α → Json) : Option α → Json
  | none => .null
  | some x => f x

def LabelSelectorRequirement.toJson (r : LabelSelectorRequirement) : Json :=
  .obj (.cons "key" (.str r.key)
    (.cons "operator" (.str r.operator)
      (.cons "values" (jstrArr r.values) .nil)))

def LabelSelector.toJson (s : LabelSelector) : Json :=
  .obj (.cons "matchLabels" (jmap s.matchLabels)
    (.cons "matchExpressions"
      (.arr (jarr (s.matchExpressions.map LabelSelectorRequirement.toJson))) .nil))

def IPBlock.toJson (b : IPBlock) : Json :=
  .obj (.cons "cidr" (.str b.cidr)
    (.cons "except" (jstrArr b.except) .nil))

def NetworkPolicyPeer.toJson (p : NetworkPolicyPeer) : Json :=
  .obj (.cons "podSelector" (jopt LabelSelector.toJson p.podSelector)
    (.cons "namespaceSelector" (jopt LabelSelector.toJson p.namespaceSelector)
      (.cons "ipBlock" (jopt IPBlock.toJson p.ipBlock) .nil)))

def NetworkPolicyPort.toJson (p : NetworkPolicyPort) : Json :=
  .obj (.cons "protocol" (jopt Json.str p.protocol)
    (.cons "port" (jopt Json.str p.port)
      (.cons "endPort" (jopt Json.str p.endPort) .nil)))

def NetworkPolicyIngressRule.toJson (r : NetworkPolicyIngressRule) : Json :=
  .obj (.cons "ports" (.arr (jarr (r.ports.map NetworkPolicyPort.toJson)))
    (.cons "from" (.arr (jarr (r.«from».map NetworkPolicyPeer.toJson))) .nil))

def NetworkPolicyEgressRule.toJson (r : NetworkPolicyEgressRule) : Json :=
  .obj (.cons "ports" (.arr (jarr (r.ports.map NetworkPolicyPort.toJson)))
    (.cons "to" (.arr (jarr (r.«to».map NetworkPolicyPeer.toJson))) .nil))

def NetworkPolicySpec.toJson (s : NetworkPolicySpec) : Json :=
  .obj (.cons "podSelector" s.podSelector.toJson
    (.cons "ingress" (.arr (jarr (s.ingress.map NetworkPolicyIngressRule.toJson)))
      (.cons "egress" (.arr (jarr (s.egress.map NetworkPolicyEgressRule.toJson)))
        (.cons "policyTypes" (jstrArr s.policyTypes) .nil))))

/-- `NetworkPolicyData` from `internal/webhook/v1`: the exact value the
repository serializes and hashes — name, namespace and spec only. -/
structure NetworkPolicyData where
  name : String
  «namespace» : String
  spec : NetworkPolicySpec
deriving DecidableEq, Repr

def NetworkPolicyData.toJson (d : NetworkPolicyData) : Json :=
  .obj (.cons "name" (.str d.name)
    (.cons "namespace" (.str d.«namespace»)
      (.cons "spec" d.spec.toJson .nil)))

/-- External collaborator model.  The repository hashes the marshalled
bytes with `crypto/sha256` and formats the digest in hex; the hash is
library code outside this repository, and the spec's contract for it (§3)
is that fingerprints of distinct canonical serializations are distinct.
We realize that collision-free contract by an executable injective
function on the serialized bytes. -/
def sha256Hex (s : String) : String := "sha256:" ++ s

/-- `generateNetworkPolicyHash` from `internal/webhook/v1`: marshal
`{name, namespace, spec}` and hash the bytes.  (The Go function returns
`(string, error)`; `json.Marshal` of these library types cannot fail, so
the error branch is dead and the model is total.) -/
def generateNetworkPolicyHash (np : NetworkPolicy) : String :=
  sha256Hex (renderJsonStr (NetworkPolicyData.toJson
    { name := np.name, «namespace» := np.«namespace», spec := np.spec }))

/-! ### Injectivity of the encoding -/

theorem jarr_inj : ∀ {l1 l2 : List Json}, jarr l1 = jarr l2 → l1 = l2
  | [], [], _ => rfl
  | [], _ :: _, h => by simp [jarr] at h
  | _ :: _, [], h => by simp [jarr] at h
  | a :: l1, b :: l2, h => by
    simp only [jarr, JsonArr.cons.injEq] at h
    rw [h.1, jarr_inj h.2]

theorem jobjOfMap_inj : ∀ {m1 m2 : List (String × String)}, jobjOfMap m1 = jobjOfMap m2 → m1 = m2
  | [], [], _ => rfl
  | [], _ :: _, h => by simp [jobjOfMap] at h
  | _ :: _, [], h => by simp [jobjOfMap] at h
  | (k1, v1) :: m1, (k2, v2) :: m2, h => by
    simp only [jobjOfMap, JsonObj.cons.injEq, Json.str.injEq] at h
    rw [h.1, h.2.1, jobjOfMap_inj h.2.2]

theorem listMap_inj {α : Type} (f : α → Json) (hf : ∀ a b, f a = f b → a = b) :
    ∀ {l1 l2 : List α}, l1.map f = l2.map f → l1 = l2
  | [], [], _ => rfl
  | [], _ :: _, h => by simp at h
  | _ :: _, [], h => by simp at h
  | a :: l1, b :: l2, h => by
    simp only [List.map_cons, List.cons.injEq] at h
    rw [hf a b h.1, listMap_inj f hf h.2]

theorem jmap_inj {m1 m2 : List (String × String)} (h : jmap m1 = jmap m2) : m1 = m2 := by
  simp only [jmap, Json.obj.injEq] at h
  exact jobjOfMap_inj h

theorem jstrArr_inj {l1 l2 : List String} (h : jstrArr l1 = jstrArr l2) : l1 = l2 := by
  simp only [jstrArr, Json.arr.injEq] at h
  exact listMap_inj Json.str (fun a b hab => by injection hab) (jarr_inj h)

theorem jopt_inj {α : Type} {f : α → Json} (hf : ∀ a b, f a = f b → a = b)
    (hn : ∀ a, f a ≠ Json.null) :
    ∀ {o1 o2 : Option α}, jopt f o1 = jopt f o2 → o1 = o2
  | none, none, _ => rfl
  | none, some b, h => absurd h.symm (hn b)
  | some a, none, h => absurd h (hn a)
  | some a, some b, h => by rw [hf a b h]

theorem labelSelectorRequirement_toJson_inj (a b : LabelSelectorRequirement)
    (h : a.toJson = b.toJson) : a = b := by
  cases a; cases b
  simp only [LabelSelectorRequirement.toJson, Json.obj.injEq, JsonObj.cons.injEq,
    Json.str.injEq, true_and, and_true] at h
  obtain ⟨h1, h2, h3⟩ := h
  simp only [LabelSelectorRequirement.mk.injEq]
  exact ⟨h1, h2, jstrArr_inj h3⟩

theorem labelSelector_toJson_inj (a b : LabelSelector) (h : a.toJson = b.toJson) : a = b := by
  cases a; cases b
  simp only [LabelSelector.toJson, Json.obj.injEq, JsonObj.cons.injEq, Json.arr.injEq,
    true_and, and_true] at h
  obtain ⟨h1, h2⟩ := h
  simp only [LabelSelector.mk.injEq]
  exact ⟨jmap_inj h1, listMap_inj _ labelSelectorRequirement_toJson_inj (jarr_inj h2)⟩

theorem labelSelector_toJson_ne_null (a : LabelSelector) : a.toJson ≠ Json.null :=
  fun h => Json.noConfusion h

theorem ipBlock_toJson_inj (a b : IPBlock) (h : a.toJson = b.toJson) : a = b := by
  cases a; cases b
  simp only [IPBlock.toJson, Json.obj.injEq, JsonObj.cons.injEq, Json.str.injEq,
    true_and, and_true] at h
  simp only [IPBlock.mk.injEq]
  exact ⟨h.1, jstrArr_inj h.2⟩

theorem ipBlock_toJson_ne_null (a : IPBlock) : a.toJson ≠ Json.null :=
  fun h => Json.noConfusion h

theorem networkPolicyPeer_toJson_inj (a b : NetworkPolicyPeer)
    (h : a.toJson = b.toJson) : a = b := by
  cases a; cases b
  simp only [NetworkPolicyPeer.toJson, Json.obj.injEq, JsonObj.cons.injEq,
    true_and, and_true] at h
  obtain ⟨h1, h2, h3⟩ := h
  simp only [NetworkPolicyPeer.mk.injEq]
  exact ⟨jopt_inj labelSelector_toJson_inj labelSelector_toJson_ne_null h1,
    jopt_inj labelSelector_toJson_inj labelSelector_toJson_ne_null h2,
    jopt_inj ipBlock_toJson_inj ipBlock_toJson_ne_null h3⟩

theorem networkPolicyPeer_toJson_ne_null (a : NetworkPolicyPeer) : a.toJson ≠ Json.null :=
  fun h => Json.noConfusion h

theorem networkPolicyPort_toJson_inj (a b : NetworkPolicyPort)
    (h : a.toJson = b.toJson) : a = b := by
  cases a; cases b
  simp only [NetworkPolicyPort.toJson, Json.obj.injEq, JsonObj.cons.injEq,
    true_and, and_true] at h
  obtain ⟨h1, h2, h3⟩ := h
  have sinj : ∀ a b : String, Json.str a = Json.str b → a = b := fun _ _ hab => by
    injection hab
  have snn : ∀ a : String, Json.str a ≠ Json.null := fun _ hab => Json.noConfusion hab
  simp only [NetworkPolicyPort.mk.injEq]
  exact ⟨jopt_inj sinj snn h1, jopt_inj sinj snn h2, jopt_inj sinj snn h3⟩

theorem networkPolicyIngressRule_toJson_inj (a b : NetworkPolicyIngressRule)
    (h : a.toJson = b.toJson) : a = b := by
  cases a; cases b
  simp only [NetworkPolicyIngressRule.toJson, Json.obj.injEq, JsonObj.cons.injEq,
    Json.arr.injEq, true_and, and_true] at h
  simp only [NetworkPolicyIngressRule.mk.injEq]
  exact ⟨listMap_inj _ networkPolicyPort_toJson_inj (jarr_inj h.1),
    listMap_inj _ networkPolicyPeer_toJson_inj (jarr_inj h.2)⟩

theorem networkPolicyEgressRule_toJson_inj (a b : NetworkPolicyEgressRule)
    (h : a.toJson = b.toJson) : a = b := by
  cases a; cases b
  simp only [NetworkPolicyEgressRule.toJson, Json.obj.injEq, JsonObj.cons.injEq,
    Json.arr.injEq, true_and, and_true] at h
  simp only [NetworkPolicyEgressRule.mk.injEq]
  exact ⟨listMap_inj _ networkPolicyPort_toJson_inj (jarr_inj h.1),
    listMap_inj _ networkPolicyPeer_toJson_inj (jarr_inj h.2)⟩

theorem networkPolicySpec_toJson_inj (a b : NetworkPolicySpec)
    (h : a.toJson = b.toJson) : a = b := by
  cases a; cases b
  simp only [NetworkPolicySpec.toJson, Json.obj.injEq, JsonObj.cons.injEq,
    Json.arr.injEq, true_and, and_true] at h
  obtain ⟨h1, h2, h3, h4⟩ := h
  simp only [NetworkPolicySpec.mk.injEq]
  exact ⟨labelSelector_toJson_inj _ _ h1,
    listMap_inj _ networkPolicyIngressRule_toJson_inj (jarr_inj h2),
    listMap_inj _ networkPolicyEgressRule_toJson_inj (jarr_inj h3),
    jstrArr_inj h4⟩

theorem networkPolicyData_toJson_inj (a b : NetworkPolicyData)
    (h : a.toJson = b.toJson) : a = b := by
  cases a; cases b
  simp only [NetworkPolicyData.toJson, Json.obj.injEq, JsonObj.cons.injEq,
    Json.str.injEq, true_and, and_true] at h
  obtain ⟨h1, h2, h3⟩ := h
  simp only [NetworkPolicyData.mk.injEq]
  exact ⟨h1, h2, networkPolicySpec_toJson_inj _ _ h3⟩

theorem string_data_append (s t : String) : (s ++ t).data = s.data ++ t.data := by
  cases s; cases t; rfl

theorem sha256Hex_inj (a b : String) (h : sha256Hex a = sha256Hex b) : a = b := by
  unfold sha256Hex at h
  have hd := congrArg String.data h
  rw [string_data_append, string_data_append] at hd
  exact congrArg String.mk (List.append_cancel_left hd)

/-- The fingerprint determines the hashed identity-and-content triple. -/
theorem generateNetworkPolicyHash_inj (np1 np2 : NetworkPolicy)
    (h : generateNetworkPolicyHash np1 = generateNetworkPolicyHash np2) :
    np1.name = np2.name ∧ np1.«namespace» = np2.«namespace» ∧ np1.spec = np2.spec := by
  unfold generateNetworkPolicyHash at h
  have hdata := networkPolicyData_toJson_inj _ _ (renderJsonStr_inj _ _ (sha256Hex_inj _ _ h))
  simp only [NetworkPolicyData.mk.injEq] at hdata
  exact hdata

/-! ## Cluster state and store operations

The Kubernetes API store is an external collaborator (spec §6).  We model
the two object kinds the core manipulates — Secrets and
CertificateSigningRequests — and the store verbs the repository uses
through `SharedReconciler` (`GetResource`, `CreateResource`,
`UpdateResource`, `DeleteResource`, `AddFinalizer`, `RemoveFinalizer`) and
through the webhook's client (`Get`, `Create`, `List`).

Store semantics follow the API server (and the fake client the repo's
tests use): get finds by namespace/name, update replaces the stored object
of that key, and delete of an object that still carries finalizers does
not remove it — it only marks it for deletion (spec §6: "a protective-guard
marker preventing deletion until explicitly cleared"). -/

/-- Go map indexing `m[k]`, with the `ok` flag as `Option`. -/
def lookupStr (m : List (String × String)) (k : String) : Option String :=
  (m.find? (fun p => p.1 == k)).map (fun p => p.2)

structure Secret where
  name : String
  «namespace» : String
  labels : List (String × String)
  annotations : List (String × String)
  type : String
  data : List (String × String)
  finalizers : List String
  deletionTimestamp : Bool
deriving DecidableEq, Repr

structure CSRCondition where
  type : String
  status : String
deriving DecidableEq, Repr

structure CertificateSigningRequest where
  name : String
  labels : List (String × String)
  annotations : List (String × String)
  request : String
  conditions : List CSRCondition
  certificate : String
deriving DecidableEq, Repr

structure Cluster where
  secrets : List Secret
  csrs : List CertificateSigningRequest
deriving DecidableEq, Repr

/-- `certificatesv1.CertificateApproved`. -/
def CertificateApproved : String := "Approved"

/-- `SecretTypeNetworkPolicyApproval` from `internal/webhook/v1`. -/
def SecretTypeNetworkPolicyApproval : String := "networkpolicy.webhook.io/approval"

def secretKeyMatch (ns n : String) (s : Secret) : Bool :=
  s.«namespace» == ns && s.name == n

def getSecret (st : Cluster) (ns n : String) : Option Secret :=
  st.secrets.find? (secretKeyMatch ns n)

def getCSR (st : Cluster) (n : String) : Option CertificateSigningRequest :=
  st.csrs.find? (fun c => c.name == n)

def createSecret (st : Cluster) (s : Secret) : Cluster :=
  { st with secrets := st.secrets ++ [s] }

def updateSecret (st : Cluster) (s : Secret) : Cluster :=
  { st with secrets :=
      st.secrets.map (fun t => if secretKeyMatch s.«namespace» s.name t then s else t) }

def createCSR (st : Cluster) (c : CertificateSigningRequest) : Cluster :=
  { st with csrs := st.csrs ++ [c] }

/-- Deletion honours finalizers: a protected object is only marked for
deletion, an unprotected one is removed. -/
def deleteSecret (st : Cluster) (ns n : String) : Cluster :=
  { st with secrets :=
      (st.secrets.map (fun t =>
        if secretKeyMatch ns n t && !t.finalizers.isEmpty then
          { t with deletionTimestamp := true }
        else t)).filter (fun t => !(secretKeyMatch ns n t && t.finalizers.isEmpty)) }

/-- `SharedReconciler.AddFinalizer`: append the finalizer and persist, if
it is not already present.  Returns the updated store and object. -/
def addFinalizerSecret (st : Cluster) (s : Secret) (f : String) : Cluster × Secret :=
  if f ∈ s.finalizers then (st, s)
  else
    let s' := { s with finalizers := s.finalizers ++ [f] }
    (updateSecret st s', s')

/-- `SharedReconciler.RemoveFinalizer`: drop the finalizer and persist, if
present. -/
def removeFinalizerSecret (st : Cluster) (s : Secret) (f : String) : Cluster × Secret :=
  if f ∈ s.finalizers then
    let s' := { s with finalizers := s.finalizers.filter (fun g => g != f) }
    (updateSecret st s', s')
  else (st, s)

/-- `ctrl.Result`. -/
structure CtrlResult where
  requeue : Bool
  requeueAfter : Nat
deriving DecidableEq, Repr

/-- The `(ctrl.Result, error)` pair of a reconcile call, together with the
store it leaves behind. -/
structure ReconcileOut where
  result : CtrlResult
  err : Option String
  state : Cluster
deriving DecidableEq, Repr

/-! ## The Grant Materializer

`CertificateSigningRequestReconciler.Reconcile` from
`internal/controller/certificatesigningrequest_controller.go`, lines
99–234, translated branch for branch.  The store model is total (reads
and writes succeed, as with the fake client of the repo's tests), so the
transient-store-error branches of the Go code are dead here; the
not-found, not-labelled, not-approved, missing-annotations, empty-
certificate, create and update branches are all live. -/

def Reconcile (st : Cluster) (reqName : String) : ReconcileOut :=
  match getCSR st reqName with
  | none =>
    -- CSR not found, likely deleted
    ⟨⟨false, 0⟩, none, st⟩
  | some csr =>
    if (lookupStr csr.labels "networkpolicy.webhook.io/approval").isNone then
      -- Not a NetworkPolicy approval CSR, ignore
      ⟨⟨false, 0⟩, none, st⟩
    else
      -- Check if CSR has been approved
      if !(csr.conditions.any (fun c => c.type == CertificateApproved)) then
        -- CSR not yet approved, nothing to do
        ⟨⟨false, 0⟩, none, st⟩
      else
        match lookupStr csr.annotations "networkpolicy.webhook.io/name",
              lookupStr csr.annotations "networkpolicy.webhook.io/namespace",
              lookupStr csr.annotations "networkpolicy.webhook.io/approval-hash" with
        | some npName, some npNamespace, some approvalHash =>
          if csr.certificate == "" then
            -- Approved CSR has no certificate data yet
            ⟨⟨true, 0⟩, none, st⟩
          else
            let secretName := "np-approval-" ++ npNamespace ++ "-" ++ npName
            let secretData := [("hash", approvalHash), ("tls-crt", csr.certificate),
              ("csr-name", csr.name)]
            let newAnnotations := [("networkpolicy.webhook.io/csr-name", csr.name),
              ("networkpolicy.webhook.io/approval-hash", approvalHash),
              ("networkpolicy.webhook.io/np-name", npName),
              ("networkpolicy.webhook.io/np-namespace", npNamespace)]
            match getSecret st npNamespace secretName with
            | none =>
              let newSecret : Secret :=
                { name := secretName
                  «namespace» := npNamespace
                  labels := [("networkpolicy.webhook.io/approval", "true"),
                    ("networkpolicy.webhook.io/name", npName)]
                  annotations := newAnnotations
                  type := "networkpolicy.webhook.io/approval"
                  data := secretData
                  finalizers := []
                  deletionTimestamp := false }
              let st1 := createSecret st newSecret
              let st2 :=
                (addFinalizerSecret st1 newSecret "networkpolicy.webhook.io/approval-protection").1
              ⟨⟨false, 0⟩, none, st2⟩
            | some secret =>
              let secret1 := { secret with data := secretData }
              let st1 := updateSecret st secret1
              let st2 :=
                (addFinalizerSecret st1 secret1 "networkpolicy.webhook.io/approval-protection").1
              ⟨⟨false, 0⟩, none, st2⟩
        | _, _, _ =>
          -- CSR missing required annotations
          ⟨⟨false, 0⟩, none, st⟩

/-! ## The Garbage Collector

`cleanupOrphanedSecrets` from the same file, lines 50–97: list all
secrets of the approval type, and for each one whose cross-referenced CSR
no longer exists, conditionally remove the `networkpolicy-approval-protection`
finalizer and delete the secret. -/

/-- The body of the `for` loop of `cleanupOrphanedSecrets`, for one listed
secret. -/
def processOrphanedSecret (st : Cluster) (secret : Secret) : Cluster :=
  match lookupStr secret.annotations "networkpolicy.webhook.io/csr-name" with
  | none => st
  | some csrName =>
    match getCSR st csrName with
    | some _ => st
    | none =>
      -- CSR doesn't exist, but secret still does - remove finalizer and delete
      let p :=
        if "networkpolicy-approval-protection" ∈ secret.finalizers then
          removeFinalizerSecret st secret "networkpolicy-approval-protection"
        else (st, secret)
      deleteSecret p.1 p.2.«namespace» p.2.name

def cleanupOrphanedSecrets (st : Cluster) : Cluster :=
  (st.secrets.filter (fun s => s.type == SecretTypeNetworkPolicyApproval)).foldl
    processOrphanedSecret st

/-! ## The Admission Gate

`checkForApprovedCertificate`, `createApprovalCSR`,
`validateNetworkPolicyApproval`, `ValidateCreate`, `ValidateUpdate` and
`ValidateDelete` from `internal/webhook/v1`, translated branch for
branch.  A webhook returns `(warnings, error)` with `error == nil`
meaning allow; warnings are always nil in the source, so the decision is
the `Option String` of the denial/error message.

Two aspects of `createApprovalCSR` are outside the store model and appear
as parameters: the RSA/x509 key material drawn from `crypto/rand`
(`keyBytes`), and whether the store's create call fails and with which
message (`createErr`, `none` meaning success). -/

def checkForApprovedCertificate (st : Cluster) (np : NetworkPolicy) (hash : String) : Bool :=
  let secretName := "np-approval-" ++ np.«namespace» ++ "-" ++ np.name
  match getSecret st np.«namespace» secretName with
  | none => false
  | some secret =>
    -- Verify the secret type
    if secret.type != SecretTypeNetworkPolicyApproval then false
    else
      -- Verify the hash matches
      match lookupStr secret.data "hash" with
      | none => false
      | some storedHash =>
        if storedHash != hash then false
        else
          -- Verify certificate data exists
          match lookupStr secret.data "tls.crt" with
          | none => false
          | some cert => cert != ""

def createApprovalCSR (st : Cluster) (np : NetworkPolicy) (hash csrName : String)
    (keyBytes : String) (createErr : Option String) : Except String Cluster :=
  let csrRequest := "-----BEGIN CERTIFICATE REQUEST-----\n" ++ keyBytes
    ++ "\n-----END CERTIFICATE REQUEST-----\n"
  let csr : CertificateSigningRequest :=
    { name := csrName
      labels := [("networkpolicy.webhook.io/approval", "true")]
      annotations := [("networkpolicy.webhook.io/approval-hash", hash),
        ("networkpolicy.webhook.io/name", np.name),
        ("networkpolicy.webhook.io/namespace", np.«namespace»)]
      request := csrRequest
      conditions := []
      certificate := "" }
  match createErr with
  | some e => .error ("failed to create CSR: " ++ e)
  | none => .ok (createCSR st csr)

def validateNetworkPolicyApproval (st : Cluster) (np : NetworkPolicy)
    (keyBytes : String) (createErr : Option String) : Option String × Cluster :=
  let hash := generateNetworkPolicyHash np
  if checkForApprovedCertificate st np hash then (none, st)
  else
    -- Check if CSR already exists
    let csrName := "np-approval-" ++ np.«namespace» ++ "-" ++ np.name
    match getCSR st csrName with
    | some _ =>
      (some ("NetworkPolicy has not been approved yet. CSR created: " ++ csrName
        ++ ". Please ask an administrator to approve the CSR"), st)
    | none =>
      match createApprovalCSR st np hash csrName keyBytes createErr with
      | .error e => (some ("failed to create approval CSR: " ++ e), st)
      | .ok st1 =>
        (some ("NetworkPolicy has not been approved yet. CSR created: " ++ csrName
          ++ ". Please ask an administrator to approve the CSR"), st1)

def ValidateCreate (st : Cluster) (np : NetworkPolicy) (keyBytes : String)
    (createErr : Option String) : Option String × Cluster :=
  validateNetworkPolicyApproval st np keyBytes createErr

/-- `ValidateUpdate` validates only the new object; the old one is
unused in the source beyond the type check. -/
def ValidateUpdate (st : Cluster) (oldObj newObj : NetworkPolicy) (keyBytes : String)
    (createErr : Option String) : Option String × Cluster :=
  validateNetworkPolicyApproval st newObj keyBytes createErr

/-- `ValidateDelete`: allow deletion without approval check. -/
def ValidateDelete (st : Cluster) (np : NetworkPolicy) : Option String × Cluster :=
  (none, st)

/-- A denial message "names" the request when the request's name occurs
in it verbatim. -/
def ContainsStr (needle hay : String) : Prop :=
  ∃ pre post : List Char, hay.data = pre ++ needle.data ++ post

/-- Executable substring check used to decide `ContainsStr`. -/
def startsWithL : List Char → List Char → Bool
  | [], _ => true
  | _ :: _, [] => false
  | a :: as, b :: bs => a == b && startsWithL as bs

def hasSubL (needle : List Char) : List Char → Bool
  | [] => startsWithL needle []
  | c :: cs => startsWithL needle (c :: cs) || hasSubL needle cs

theorem startsWithL_iff : ∀ (n h : List Char), startsWithL n h = true ↔ ∃ post, h = n ++ post
  | [], h => by simp [startsWithL]
  | a :: as, [] => by simp [startsWithL]
  | a :: as, b :: bs => by
    simp only [startsWithL, Bool.and_eq_true, beq_iff_eq, startsWithL_iff as bs,
      List.cons_append, List.cons.injEq]
    constructor
    · rintro ⟨rfl, post, rfl⟩
      exact ⟨post, rfl, rfl⟩
    · rintro ⟨post, rfl, rfl⟩
      exact ⟨rfl, post, rfl⟩

theorem hasSubL_iff : ∀ (n h : List Char), hasSubL n h = true ↔ ∃ pre post, h = pre ++ n ++ post
  | n, [] => by
    cases n with
    | nil => simp [hasSubL, startsWithL]
    | cons c cs => simp [hasSubL, startsWithL]
  | n, c :: cs => by
    simp only [hasSubL, Bool.or_eq_true, startsWithL_iff, hasSubL_iff n cs]
    constructor
    · rintro (⟨post, hp⟩ | ⟨pre, post, rfl⟩)
      · exact ⟨[], post, by simpa using hp⟩
      · exact ⟨c :: pre, post, rfl⟩
    · rintro ⟨pre, post, hp⟩
      cases pre with
      | nil =>
        left
        exact ⟨post, by simpa using hp⟩
      | cons d ds =>
        right
        simp only [List.cons_append, List.cons.injEq] at hp
        exact ⟨ds, post, hp.2⟩

instance containsStrDec (n h : String) : Decidable (ContainsStr n h) :=
  decidable_of_iff _ (hasSubL_iff n.data h.data)

/-! ## List lemmas about the store's update/find behaviour -/

theorem find?_map_ite {α : Type} (p : α → Bool) (y : α) (hy : p y = true) :
    ∀ (l : List α) (x : α), l.find? p = some x →
      (l.map (fun t => if p t then y else t)).find? p = some y
  | [], x, h => by simp at h
  | a :: l, x, h => by
    cases hpa : p a with
    | true => simp [List.find?, hpa, hy]
    | false =>
      rw [List.find?_cons_of_neg _ (by simp [hpa])] at h
      simp only [List.map_cons, hpa, if_false]
      rw [List.find?_cons_of_neg _ (by simp [hpa])]
      exact find?_map_ite p y hy l x h

theorem map_ite_of_none {α : Type} (p : α → Bool) (y : α) (l : List α)
    (hl : ∀ t ∈ l, p t = false) : l.map (fun t => if p t then y else t) = l := by
  induction l with
  | nil => rfl
  | cons a l ih =>
    simp only [List.map_cons, hl a (List.mem_cons_self a l), if_false, List.cons.injEq]
    exact ⟨rfl, ih (fun t ht => hl t (List.mem_cons_of_mem a ht))⟩

theorem map_ite_id_of_eq {α : Type} (p : α → Bool) (y : α) (l : List α)
    (hl : ∀ t ∈ l, p t = true → t = y) : l.map (fun t => if p t then y else t) = l := by
  induction l with
  | nil => rfl
  | cons a l ih =>
    simp only [List.map_cons, List.cons.injEq]
    refine ⟨?_, ih (fun t ht hp => hl t (List.mem_cons_of_mem a ht) hp)⟩
    cases hpa : p a with
    | true => simp [hl a (List.mem_cons_self a l) hpa]
    | false => simp

theorem map_ite_mem_eq {α : Type} (p : α → Bool) (y : α) (l : List α) :
    ∀ t ∈ l.map (fun t => if p t then y else t), p t = true → t = y := by
  intro t ht hpt
  obtain ⟨a, ha, hfa⟩ := List.mem_map.mp ht
  by_cases hpa : p a = true
  · rw [← hfa]; simp [hpa]
  · exfalso
    have hta : t = a := by rw [← hfa]; simp [hpa]
    rw [hta] at hpt
    exact hpa hpt

theorem map_ite_ite {α : Type} (p : α → Bool) (y z : α) (hy : p y = true) (l : List α) :
    (l.map (fun t => if p t then y else t)).map (fun t => if p t then z else t)
      = l.map (fun t => if p t then z else t) := by
  rw [List.map_map]
  apply List.map_congr_left
  intro a _
  cases hpa : p a <;> simp [Function.comp, hpa, hy]

theorem find?_append_of_none {α : Type} (p : α → Bool) (l1 l2 : List α)
    (h : l1.find? p = none) : (l1 ++ l2).find? p = l2.find? p := by
  induction l1 with
  | nil => rfl
  | cons a l ih =>
    rw [List.find?_eq_none] at h
    have hpa : p a = false := by
      have := h a (List.mem_cons_self a l)
      simpa using this
    simp only [List.cons_append]
    rw [List.find?_cons_of_neg _ (by simp [hpa])]
    exact ih (by
      rw [List.find?_eq_none]
      exact fun x hx => h x (List.mem_cons_of_mem a hx))

theorem mem_map_of_fix {α : Type} {s : α} {l : List α} (f : α → α) (hf : f s = s)
    (h : s ∈ l) : s ∈ l.map f := hf ▸ List.mem_map_of_mem f h

/-! ## Concrete sample data used by counterexamples and witnesses -/

set_option maxRecDepth 100000

def selA : LabelSelector := { matchLabels := [("app", "test")], matchExpressions := [] }

def peerA : NetworkPolicyPeer :=
  { podSelector := some selA, namespaceSelector := none, ipBlock := none }

def specA : NetworkPolicySpec :=
  { podSelector := selA
    ingress := [{ ports := [], «from» := [peerA] }]
    egress := []
    policyTypes := ["Ingress"] }

def npA : NetworkPolicy :=
  { name := "test-policy", «namespace» := "default", labels := [], annotations := []
    spec := specA }

/-- An approved CSR carrying the fingerprint of `npA` and signed bytes,
as the external approval authority would leave it. -/
def csrA : CertificateSigningRequest :=
  { name := "np-approval-default-test-policy"
    labels := [("networkpolicy.webhook.io/approval", "true")]
    annotations := [("networkpolicy.webhook.io/name", "test-policy"),
      ("networkpolicy.webhook.io/namespace", "default"),
      ("networkpolicy.webhook.io/approval-hash", generateNetworkPolicyHash npA)]
    request := "req"
    conditions := [⟨"Approved", "True"⟩]
    certificate := "CERTBYTES" }

/-! ## The claims -/

theorem validate_decision (st : Cluster) (np : NetworkPolicy) (k : String) (e : Option String) :
    (validateNetworkPolicyApproval st np k e).1.isNone
      = checkForApprovedCertificate st np (generateNetworkPolicyHash np) := by
  unfold validateNetworkPolicyApproval
  cases hc : checkForApprovedCertificate st np (generateNetworkPolicyHash np) with
  | true => simp [hc]
  | false =>
    cases hcsr : getCSR st ("np-approval-" ++ np.«namespace» ++ "-" ++ np.name) with
    | some c => simp [hc, hcsr]
    | none => cases e <;> simp [hc, hcsr, createApprovalCSR]

/-- C9: for every policy object and every fixed store state, two calls of
the admission check (ValidateCreate or ValidateUpdate) return the
identical allow/deny decision — here the two calls may even draw
different key material and see different create-failure outcomes, the
only sources of variation outside the store. -/
theorem c9_idempotent_admission (st : Cluster) (np oldObj : NetworkPolicy)
    (k1 k2 : String) (e1 e2 : Option String) :
    ((ValidateCreate st np k1 e1).1.isNone = (ValidateCreate st np k2 e2).1.isNone)
    ∧ ((ValidateUpdate st oldObj np k1 e1).1.isNone
        = (ValidateUpdate st oldObj np k2 e2).1.isNone) := by
  unfold ValidateCreate ValidateUpdate
  simp [validate_decision]

/-- C5 counterexample: the claim says a granted request without artifact
bytes is retried "on a fixed delay"; the code returns
`ctrl.Result{Requeue: true}` — the `RequeueAfter` duration stays zero, so
there is no fixed delay, only an immediate backoff-scheduled requeue
(with no error and no store change). -/
theorem c5_counterexample :
    Reconcile ⟨[], [{ csrA with certificate := "" }]⟩ "np-approval-default-test-policy"
      = ⟨⟨true, 0⟩, none, ⟨[], [{ csrA with certificate := "" }]⟩⟩ := by decide

/-- C5 amended: for every CSR with an approved condition, the approval
label, all cross-reference annotations and empty certificate bytes,
Reconcile requests a requeue (Requeue flag set, `RequeueAfter` zero — the
delay is the controller's backoff, not a fixed duration) with no error
and no store change, rather than treating the state as an error. -/
theorem c5_amended (st : Cluster) (reqName : String) (csr : CertificateSigningRequest)
    (npName npNamespace approvalHash : String)
    (hget : getCSR st reqName = some csr)
    (hlabel : (lookupStr csr.labels "networkpolicy.webhook.io/approval").isNone = false)
    (happ : csr.conditions.any (fun c => c.type == CertificateApproved) = true)
    (hname : lookupStr csr.annotations "networkpolicy.webhook.io/name" = some npName)
    (hns : lookupStr csr.annotations "networkpolicy.webhook.io/namespace" = some npNamespace)
    (hhash : lookupStr csr.annotations "networkpolicy.webhook.io/approval-hash"
      = some approvalHash)
    (hcert : csr.certificate = "") :
    Reconcile st reqName = ⟨⟨true, 0⟩, none, st⟩ := by
  simp [Reconcile, hget, hlabel, happ, hname, hns, hhash, hcert]

theorem c5_amended_witness :
    Reconcile ⟨[], [{ csrA with certificate := "" }]⟩ "np-approval-default-test-policy"
      = ⟨⟨true, 0⟩, none, ⟨[], [{ csrA with certificate := "" }]⟩⟩ :=
  c5_amended _ _ { csrA with certificate := "" } "test-policy" "default"
    (generateNetworkPolicyHash npA) (by decide) (by decide) (by decide) (by decide)
    (by decide) (by decide) (by decide)

/-- C7: for every approved CSR (with the approval label) missing any of
the three required cross-reference annotations, Reconcile returns without
requeue and without error, and leaves the store untouched — in
particular it creates or updates no Secret. -/
theorem c7_malformed_no_retry (st : Cluster) (reqName : String)
    (csr : CertificateSigningRequest)
    (hget : getCSR st reqName = some csr)
    (hlabel : (lookupStr csr.labels "networkpolicy.webhook.io/approval").isNone = false)
    (happ : csr.conditions.any (fun c => c.type == CertificateApproved) = true)
    (hmiss : lookupStr csr.annotations "networkpolicy.webhook.io/name" = none
      ∨ lookupStr csr.annotations "networkpolicy.webhook.io/namespace" = none
      ∨ lookupStr csr.annotations "networkpolicy.webhook.io/approval-hash" = none) :
    Reconcile st reqName = ⟨⟨false, 0⟩, none, st⟩ := by
  cases h1 : lookupStr csr.annotations "networkpolicy.webhook.io/name" with
  | none => simp [Reconcile, hget, hlabel, happ, h1]
  | some v1 =>
    cases h2 : lookupStr csr.annotations "networkpolicy.webhook.io/namespace" with
    | none => simp [Reconcile, hget, hlabel, happ, h1, h2]
    | some v2 =>
      cases h3 : lookupStr csr.annotations "networkpolicy.webhook.io/approval-hash" with
      | none => simp [Reconcile, hget, hlabel, happ, h1, h2, h3]
      | some v3 =>
        exfalso
        rcases hmiss with hm | hm | hm
        · rw [h1] at hm; exact Option.noConfusion hm
        · rw [h2] at hm; exact Option.noConfusion hm
        · rw [h3] at hm; exact Option.noConfusion hm

theorem c7_witness :
    Reconcile ⟨[], [{ csrA with
        annotations := [("networkpolicy.webhook.io/name", "test-policy")] }]⟩
      "np-approval-default-test-policy"
      = ⟨⟨false, 0⟩, none, ⟨[], [{ csrA with
          annotations := [("networkpolicy.webhook.io/name", "test-policy")] }]⟩⟩ :=
  c7_malformed_no_retry _ _
    { csrA with annotations := [("networkpolicy.webhook.io/name", "test-policy")] }
    (by decide) (by decide) (by decide) (Or.inr (Or.inl (by decide)))

/-- C3 counterexample: the claim says a condition of the approved kind
must be present AND true for a token to be written; the code checks only
the condition's type, so a CSR whose sole approved-type condition has
status "False" still gets a Secret written by Reconcile (the store's
secret list is no longer empty). -/
theorem c3_counterexample :
    (∀ c ∈ ({ csrA with conditions := [⟨"Approved", "False"⟩] }
        : CertificateSigningRequest).conditions,
      c.type = CertificateApproved ∧ c.status = "False")
    ∧ (Reconcile ⟨[], [{ csrA with conditions := [⟨"Approved", "False"⟩] }]⟩
        "np-approval-default-test-policy").state.secrets ≠ [] := by decide

/-- C3 amended: the Grant Materializer keys only on the presence of a
condition of the approved type, ignoring its status; for every CSR with
no approved-type condition at all, Reconcile writes or updates no token
and leaves the store unchanged. -/
theorem c3_amended (st : Cluster) (reqName : String) (csr : CertificateSigningRequest)
    (hget : getCSR st reqName = some csr)
    (hnocond : ∀ c ∈ csr.conditions, c.type ≠ CertificateApproved) :
    Reconcile st reqName = ⟨⟨false, 0⟩, none, st⟩ := by
  have hany : csr.conditions.any (fun c => c.type == CertificateApproved) = false := by
    rw [List.any_eq_false]
    intro c hc
    simpa using hnocond c hc
  simp [Reconcile, hget, hany]

theorem c3_amended_witness :
    Reconcile ⟨[], [{ csrA with conditions := [⟨"Pending", "True"⟩] }]⟩
      "np-approval-default-test-policy"
      = ⟨⟨false, 0⟩, none, ⟨[], [{ csrA with conditions := [⟨"Pending", "True"⟩] }]⟩⟩ :=
  c3_amended _ _ { csrA with conditions := [⟨"Pending", "True"⟩] } (by decide) (by decide)

theorem stringAppend_assoc (a b c : String) : a ++ b ++ c = a ++ (b ++ c) := by
  cases a; cases b; cases c
  exact congrArg String.mk (List.append_assoc _ _ _)

theorem containsStr_affix (pre mid post : String) : ContainsStr mid (pre ++ mid ++ post) := by
  refine ⟨pre.data, post.data, ?_⟩
  simp [string_data_append, List.append_assoc]

/-- C4 counterexample: when creation of the approval request itself
fails, the denial message wraps the creation error but does not name the
request — here the store error "connection refused" yields a message in
which the deterministic request name `np-approval-default-test-policy`
does not occur, contradicting "in all not-approved cases the denial
message names the request". -/
theorem c4_counterexample :
    (ValidateCreate ⟨[], []⟩ npA "k" (some "connection refused")).1
      = some "failed to create approval CSR: failed to create CSR: connection refused"
    ∧ ¬ ContainsStr "np-approval-default-test-policy"
        "failed to create approval CSR: failed to create CSR: connection refused" := by
  constructor
  · decide
  · decide

/-- C4 amended: in a not-approved admission, (a) if request creation
fails the denial surfaces that failure — the message is exactly the
wrapped creation error, which need not name the request; (b) in the
remaining not-approved cases (request already exists, or creation
succeeds) the denial message does name the (existing or newly created)
request. -/
theorem c4_amended (st : Cluster) (np : NetworkPolicy) (k : String) (e : Option String)
    (hna : checkForApprovedCertificate st np (generateNetworkPolicyHash np) = false) :
    (∀ err, e = some err →
      getCSR st ("np-approval-" ++ np.«namespace» ++ "-" ++ np.name) = none →
      (validateNetworkPolicyApproval st np k e).1
        = some ("failed to create approval CSR: " ++ ("failed to create CSR: " ++ err)))
    ∧ ((getCSR st ("np-approval-" ++ np.«namespace» ++ "-" ++ np.name) ≠ none ∨ e = none) →
      ∃ m, (validateNetworkPolicyApproval st np k e).1 = some m
        ∧ ContainsStr ("np-approval-" ++ np.«namespace» ++ "-" ++ np.name) m) := by
  constructor
  · intro err he hcsr
    subst he
    simp [validateNetworkPolicyApproval, hna, hcsr, createApprovalCSR]
  · intro hor
    cases hcsr : getCSR st ("np-approval-" ++ np.«namespace» ++ "-" ++ np.name) with
    | some c =>
      refine ⟨"NetworkPolicy has not been approved yet. CSR created: "
          ++ ("np-approval-" ++ np.«namespace» ++ "-" ++ np.name)
          ++ ". Please ask an administrator to approve the CSR", ?_, ?_⟩
      · simp [validateNetworkPolicyApproval, hna, hcsr]
      · exact containsStr_affix "NetworkPolicy has not been approved yet. CSR created: " _
          ". Please ask an administrator to approve the CSR"
    | none =>
      rcases hor with hne | he
      · exact absurd hcsr hne
      · subst he
        refine ⟨"NetworkPolicy has not been approved yet. CSR created: "
            ++ ("np-approval-" ++ np.«namespace» ++ "-" ++ np.name)
            ++ ". Please ask an administrator to approve the CSR", ?_, ?_⟩
        · simp [validateNetworkPolicyApproval, hna, hcsr, createApprovalCSR]
        · exact containsStr_affix "NetworkPolicy has not been approved yet. CSR created: " _
            ". Please ask an administrator to approve the CSR"

theorem c4_amended_witness :
    (validateNetworkPolicyApproval ⟨[], []⟩ npA "k" (some "connection refused")).1
      = some ("failed to create approval CSR: " ++ ("failed to create CSR: "
        ++ "connection refused")) :=
  (c4_amended ⟨[], []⟩ npA "k" (some "connection refused") (by decide)).1
    "connection refused" rfl (by decide)

/-- C6: fingerprint determinism — `generateNetworkPolicyHash` returns
the same digest on repeated calls; the digest depends only on the
policy's name, namespace and spec (labels and annotations are free);
and changing any field of the spec changes the digest (by injectivity of
the canonical serialization and the collision-free contract of the
external hash). -/
theorem c6_fingerprint_determinism :
    (∀ np : NetworkPolicy, generateNetworkPolicyHash np = generateNetworkPolicyHash np)
    ∧ (∀ np1 np2 : NetworkPolicy, np1.name = np2.name →
        np1.«namespace» = np2.«namespace» → np1.spec = np2.spec →
        generateNetworkPolicyHash np1 = generateNetworkPolicyHash np2)
    ∧ (∀ np1 np2 : NetworkPolicy, np1.name = np2.name →
        np1.«namespace» = np2.«namespace» → np1.spec ≠ np2.spec →
        generateNetworkPolicyHash np1 ≠ generateNetworkPolicyHash np2) := by
  refine ⟨fun np => rfl, ?_, ?_⟩
  · intro np1 np2 h1 h2 h3
    unfold generateNetworkPolicyHash
    rw [h1, h2, h3]
  · intro np1 np2 h1 h2 h3 hh
    exact h3 (generateNetworkPolicyHash_inj np1 np2 hh).2.2

def npALbl : NetworkPolicy :=
  { npA with labels := [("team", "a")], annotations := [("note", "b")] }

def npASpec2 : NetworkPolicy :=
  { npA with spec := { specA with policyTypes := ["Ingress", "Egress"] } }

theorem c6_witness :
    generateNetworkPolicyHash npA = generateNetworkPolicyHash npALbl
    ∧ generateNetworkPolicyHash npA ≠ generateNetworkPolicyHash npASpec2 :=
  ⟨c6_fingerprint_determinism.2.1 npA npALbl rfl rfl rfl,
    c6_fingerprint_determinism.2.2 npA npASpec2 rfl rfl (by decide)⟩

theorem processOrphaned_preserves (s : Secret) (acc : Cluster) (x : Secret)
    (hx : lookupStr x.annotations "networkpolicy.webhook.io/csr-name" = none
      ∨ ¬(x.«namespace» = s.«namespace» ∧ x.name = s.name))
    (hmem : s ∈ acc.secrets) : s ∈ (processOrphanedSecret acc x).secrets := by
  unfold processOrphanedSecret
  split
  · exact hmem
  rename_i csrName hax
  split
  · exact hmem
  rename_i hcsr
  have hxne : ¬(x.«namespace» = s.«namespace» ∧ x.name = s.name) := by
    rcases hx with hx | hx
    · rw [hax] at hx; exact Option.noConfusion hx
    · exact hx
  have hkm : secretKeyMatch x.«namespace» x.name s = false := by
    rw [Bool.eq_false_iff]
    simp only [secretKeyMatch, ne_eq, Bool.and_eq_true, beq_iff_eq, not_and]
    intro h1 h2
    exact hxne ⟨h1.symm, h2.symm⟩
  by_cases hf : "networkpolicy-approval-protection" ∈ x.finalizers
  · simp only [hf, if_true, removeFinalizerSecret, updateSecret, deleteSecret]
    refine List.mem_filter.mpr ⟨?_, by simp [hkm]⟩
    exact mem_map_of_fix _ (by simp [hkm]) (mem_map_of_fix _ (by simp [hkm]) hmem)
  · simp only [hf, if_false, deleteSecret]
    refine List.mem_filter.mpr ⟨?_, by simp [hkm]⟩
    exact mem_map_of_fix _ (by simp [hkm]) hmem

/-- C10 (implicit frame property): in a store whose secrets have unique
namespace/name keys, a secret of the approval type whose annotations lack
the `networkpolicy.webhook.io/csr-name` key survives a Garbage Collector
sweep completely unchanged (same element, finalizers and all), regardless
of which CSRs exist. -/
theorem c10_frame (st : Cluster) (s : Secret)
    (huniq : ∀ t1 ∈ st.secrets, ∀ t2 ∈ st.secrets,
      t1.«namespace» = t2.«namespace» → t1.name = t2.name → t1 = t2)
    (hs : s ∈ st.secrets)
    (htype : s.type = SecretTypeNetworkPolicyApproval)
    (hann : lookupStr s.annotations "networkpolicy.webhook.io/csr-name" = none) :
    s ∈ (cleanupOrphanedSecrets st).secrets := by
  unfold cleanupOrphanedSecrets
  have hsub : ∀ x ∈ st.secrets.filter (fun t => t.type == SecretTypeNetworkPolicyApproval),
      lookupStr x.annotations "networkpolicy.webhook.io/csr-name" = none
        ∨ ¬(x.«namespace» = s.«namespace» ∧ x.name = s.name) := by
    intro x hxf
    have hxmem : x ∈ st.secrets := (List.mem_filter.mp hxf).1
    by_cases hk : x.«namespace» = s.«namespace» ∧ x.name = s.name
    · left
      rw [huniq x hxmem s hs hk.1 hk.2]
      exact hann
    · right; exact hk
  have hfold : ∀ (l : List Secret) (acc : Cluster),
      (∀ x ∈ l, lookupStr x.annotations "networkpolicy.webhook.io/csr-name" = none
        ∨ ¬(x.«namespace» = s.«namespace» ∧ x.name = s.name)) →
      s ∈ acc.secrets → s ∈ (l.foldl processOrphanedSecret acc).secrets := by
    intro l
    induction l with
    | nil => intro acc _ h; exact h
    | cons x l ih =>
      intro acc hD h
      exact ih _ (fun z hz => hD z (List.mem_cons_of_mem x hz))
        (processOrphaned_preserves s acc x (hD x (List.mem_cons_self x l)) h)
  exact hfold _ st hsub hs

/-- The orphaned token of C10's witness: approval type, no csr-name
cross-reference. -/
def sNoAnn : Secret :=
  { name := "np-approval-default-legacy", «namespace» := "default"
    labels := [("networkpolicy.webhook.io/approval", "true")]
    annotations := []
    type := "networkpolicy.webhook.io/approval"
    data := [("hash", "h")]
    finalizers := ["networkpolicy.webhook.io/approval-protection"]
    deletionTimestamp := false }

theorem c10_witness : sNoAnn ∈ (cleanupOrphanedSecrets ⟨[sNoAnn], []⟩).secrets :=
  c10_frame ⟨[sNoAnn], []⟩ sNoAnn (by decide) (by decide) (by decide) (by decide)

/-- The orphaned token of C2: its protective guard is the finalizer the
Grant Materializer attaches (`networkpolicy.webhook.io/approval-protection`),
and its cross-referenced CSR does not exist. -/
def tokenOrphan : Secret :=
  { name := "np-approval-default-gone", «namespace» := "default"
    labels := [("networkpolicy.webhook.io/approval", "true")]
    annotations := [("networkpolicy.webhook.io/csr-name", "gone-csr")]
    type := "networkpolicy.webhook.io/approval"
    data := [("hash", "h"), ("tls-crt", "C"), ("csr-name", "gone-csr")]
    finalizers := ["networkpolicy.webhook.io/approval-protection"]
    deletionTimestamp := false }

/-- C2 code bug: the Grant Materializer attaches the guard
`networkpolicy.webhook.io/approval-protection` (controller lines 205,
224), but the sweep only clears `networkpolicy-approval-protection`
(line 80) — a different string.  So for a token guarded by the
materializer's finalizer whose CSR is gone, one sweep does NOT clear the
guard and does NOT delete the token: the token survives with its guard
intact, merely marked for deletion, and no sweep can ever remove it. -/
theorem c2_orphan_cleanup_code_bug :
    cleanupOrphanedSecrets ⟨[tokenOrphan], []⟩
      = ⟨[{ tokenOrphan with deletionTimestamp := true }], []⟩
    ∧ "networkpolicy.webhook.io/approval-protection"
        ∈ ({ tokenOrphan with deletionTimestamp := true } : Secret).finalizers := by
  constructor
  · decide
  · decide

/-- C1 code bug: granting `csrA` (which carries `fingerprint(npA)`)
makes Reconcile materialize the token with the stored fingerprint equal
to `fingerprint(npA)` — but the subsequent admission check of the
unchanged `npA` against that token still denies, because
`checkForApprovedCertificate` reads the artifact under the data key
`tls.crt` while Reconcile writes it under `tls-crt`.  The repo's own
tests store the artifact under `tls-crt` and expect allow. -/
theorem c1_gate_grant_allow_code_bug :
    ((getSecret (Reconcile ⟨[], [csrA]⟩ "np-approval-default-test-policy").state "default"
        "np-approval-default-test-policy").map (fun s => lookupStr s.data "hash"))
      = some (some (generateNetworkPolicyHash npA))
    ∧ (ValidateUpdate (Reconcile ⟨[], [csrA]⟩ "np-approval-default-test-policy").state npA npA
        "k" none).1 ≠ none := by
  constructor
  · decide
  · decide

/-! ## Grant Materializer idempotence (C8)

`reconcile_granted_stable` shows a store already holding the materialized
token absorbs a Reconcile run; `reconcile_granted_writes` shows the first
run produces exactly such a store. -/

theorem reconcile_granted_stable
    (st : Cluster) (reqName : String) (csr : CertificateSigningRequest)
    (npName npNamespace approvalHash : String) (y : Secret)
    (hget : getCSR st reqName = some csr)
    (hlabel : (lookupStr csr.labels "networkpolicy.webhook.io/approval").isNone = false)
    (happ : csr.conditions.any (fun c => c.type == CertificateApproved) = true)
    (hname : lookupStr csr.annotations "networkpolicy.webhook.io/name" = some npName)
    (hns : lookupStr csr.annotations "networkpolicy.webhook.io/namespace" = some npNamespace)
    (hhash : lookupStr csr.annotations "networkpolicy.webhook.io/approval-hash"
      = some approvalHash)
    (hcert : (csr.certificate == "") = false)
    (hsec : getSecret st npNamespace ("np-approval-" ++ npNamespace ++ "-" ++ npName) = some y)
    (hdata : y.data
      = [("hash", approvalHash), ("tls-crt", csr.certificate), ("csr-name", csr.name)])
    (hfin : "networkpolicy.webhook.io/approval-protection" ∈ y.finalizers)
    (hall : ∀ t ∈ st.secrets,
      secretKeyMatch npNamespace ("np-approval-" ++ npNamespace ++ "-" ++ npName) t = true
        → t = y) :
    Reconcile st reqName = ⟨⟨false, 0⟩, none, st⟩ := by
  have hyP : secretKeyMatch npNamespace ("np-approval-" ++ npNamespace ++ "-" ++ npName) y
      = true := List.find?_some hsec
  have hyc : y.«namespace» = npNamespace
      ∧ y.name = "np-approval-" ++ npNamespace ++ "-" ++ npName := by
    simpa [secretKeyMatch] using hyP
  have hy1 : ({ y with data :=
      [("hash", approvalHash), ("tls-crt", csr.certificate), ("csr-name", csr.name)] } : Secret)
      = y := by
    rw [← hdata]
  simp only [Reconcile, hget, hlabel, happ, hname, hns, hhash, hcert, hsec, hy1,
    Bool.not_true, Bool.false_eq_true, if_false]
  have hupd : updateSecret st y = st := by
    unfold updateSecret
    rw [hyc.1, hyc.2, map_ite_id_of_eq _ y st.secrets hall]
  rw [hupd]
  simp [addFinalizerSecret, hfin]


theorem create_addFin (st : Cluster) (s : Secret) (f : String) (hnotin : f ∉ s.finalizers)
    (hnone : st.secrets.find? (secretKeyMatch s.«namespace» s.name) = none) :
    (addFinalizerSecret (createSecret st s) s f).1
      = { st with secrets := st.secrets ++ [{ s with finalizers := s.finalizers ++ [f] }] } := by
  unfold addFinalizerSecret
  rw [if_neg hnotin]
  unfold updateSecret createSecret
  simp only [List.map_append]
  congr 1
  rw [map_ite_of_none _ _ _ (fun t ht => by
    have := List.find?_eq_none.mp hnone t ht
    simpa using this)]
  simp [secretKeyMatch]

theorem update_addFin1 (st : Cluster) (s : Secret) (f : String) (hin : f ∈ s.finalizers) :
    (addFinalizerSecret (updateSecret st s) s f).1 = updateSecret st s := by
  unfold addFinalizerSecret
  rw [if_pos hin]

theorem update_addFin2 (st : Cluster) (s : Secret) (f : String) (hnotin : f ∉ s.finalizers) :
    (addFinalizerSecret (updateSecret st s) s f).1
      = { st with secrets := st.secrets.map (fun t =>
          if secretKeyMatch s.«namespace» s.name t then { s with finalizers := s.finalizers ++ [f] }
          else t) } := by
  unfold addFinalizerSecret
  rw [if_neg hnotin]
  show updateSecret (updateSecret st s) { s with finalizers := s.finalizers ++ [f] } = _
  unfold updateSecret
  congr 1
  exact map_ite_ite (secretKeyMatch s.«namespace» s.name) s
    { s with finalizers := s.finalizers ++ [f] } (by simp [secretKeyMatch]) st.secrets

theorem create_then_addFin_facts (st : Cluster) (ns n : String) (s : Secret) (f : String)
    (hns' : s.«namespace» = ns) (hname' : s.name = n) (hnotin : f ∉ s.finalizers)
    (hnone : st.secrets.find? (secretKeyMatch ns n) = none) :
    ∃ y : Secret,
      (addFinalizerSecret (createSecret st s) s f).1.csrs = st.csrs
      ∧ (addFinalizerSecret (createSecret st s) s f).1.secrets.find? (secretKeyMatch ns n)
          = some y
      ∧ y.data = s.data
      ∧ f ∈ y.finalizers
      ∧ ∀ t ∈ (addFinalizerSecret (createSecret st s) s f).1.secrets,
          secretKeyMatch ns n t = true → t = y := by
  subst hns' hname'
  rw [create_addFin st s f hnotin hnone]
  refine ⟨{ s with finalizers := s.finalizers ++ [f] }, rfl, ?_, rfl, by simp, ?_⟩
  · rw [find?_append_of_none _ _ _ hnone]
    rw [List.find?_cons_of_pos _ (by simp [secretKeyMatch])]
  · intro t ht hp
    rcases List.mem_append.mp ht with hl | hr
    · have := List.find?_eq_none.mp hnone t hl
      rw [hp] at this
      exact absurd rfl this
    · simpa using hr

theorem update_then_addFin_facts (st : Cluster) (ns n : String) (sec : Secret)
    (sd : List (String × String)) (f : String)
    (hfind : st.secrets.find? (secretKeyMatch ns n) = some sec) :
    ∃ y : Secret,
      (addFinalizerSecret (updateSecret st { sec with data := sd })
          { sec with data := sd } f).1.csrs = st.csrs
      ∧ (addFinalizerSecret (updateSecret st { sec with data := sd })
          { sec with data := sd } f).1.secrets.find? (secretKeyMatch ns n) = some y
      ∧ y.data = sd
      ∧ f ∈ y.finalizers
      ∧ ∀ t ∈ (addFinalizerSecret (updateSecret st { sec with data := sd })
          { sec with data := sd } f).1.secrets,
          secretKeyMatch ns n t = true → t = y := by
  have hsP : secretKeyMatch ns n sec = true := List.find?_some hfind
  have hsns : sec.«namespace» = ns := by
    simp only [secretKeyMatch, Bool.and_eq_true, beq_iff_eq] at hsP
    exact hsP.1
  have hsname : sec.name = n := by
    simp only [secretKeyMatch, Bool.and_eq_true, beq_iff_eq] at hsP
    exact hsP.2
  by_cases hf : f ∈ sec.finalizers
  · rw [update_addFin1 st { sec with data := sd } f hf]
    unfold updateSecret
    simp only [hsns, hsname]
    refine ⟨{ name := n, «namespace» := ns, labels := sec.labels,
              annotations := sec.annotations, type := sec.type, data := sd,
              finalizers := sec.finalizers, deletionTimestamp := sec.deletionTimestamp },
            ?_, ?_, ?_, ?_, ?_⟩
    · trivial
    · exact find?_map_ite _ _ (by simp [secretKeyMatch]) st.secrets sec hfind
    · rfl
    · exact hf
    · intro t ht hp
      exact map_ite_mem_eq _ _ st.secrets t ht hp
  · rw [update_addFin2 st { sec with data := sd } f hf]
    simp only [hsns, hsname]
    refine ⟨{ name := n, «namespace» := ns, labels := sec.labels,
              annotations := sec.annotations, type := sec.type, data := sd,
              finalizers := sec.finalizers ++ [f],
              deletionTimestamp := sec.deletionTimestamp },
            ?_, ?_, ?_, ?_, ?_⟩
    · trivial
    · exact find?_map_ite _ _ (by simp [secretKeyMatch]) st.secrets sec hfind
    · rfl
    · simp
    · intro t ht hp
      exact map_ite_mem_eq _ _ st.secrets t ht hp

theorem reconcile_granted_writes
    (st : Cluster) (reqName : String) (csr : CertificateSigningRequest)
    (npName npNamespace approvalHash : String)
    (hget : getCSR st reqName = some csr)
    (hlabel : (lookupStr csr.labels "networkpolicy.webhook.io/approval").isNone = false)
    (happ : csr.conditions.any (fun c => c.type == CertificateApproved) = true)
    (hname : lookupStr csr.annotations "networkpolicy.webhook.io/name" = some npName)
    (hns : lookupStr csr.annotations "networkpolicy.webhook.io/namespace" = some npNamespace)
    (hhash : lookupStr csr.annotations "networkpolicy.webhook.io/approval-hash"
      = some approvalHash)
    (hcert : (csr.certificate == "") = false) :
    ∃ y : Secret,
      (Reconcile st reqName).state.csrs = st.csrs
      ∧ getSecret (Reconcile st reqName).state npNamespace
          ("np-approval-" ++ npNamespace ++ "-" ++ npName) = some y
      ∧ y.data = [("hash", approvalHash), ("tls-crt", csr.certificate), ("csr-name", csr.name)]
      ∧ "networkpolicy.webhook.io/approval-protection" ∈ y.finalizers
      ∧ ∀ t ∈ (Reconcile st reqName).state.secrets,
          secretKeyMatch npNamespace ("np-approval-" ++ npNamespace ++ "-" ++ npName) t = true
            → t = y := by
  cases hsec0 : getSecret st npNamespace ("np-approval-" ++ npNamespace ++ "-" ++ npName) with
  | none =>
    simp only [Reconcile, hget, hlabel, happ, hname, hns, hhash, hcert, hsec0,
      Bool.not_true, Bool.false_eq_true, if_false]
    exact create_then_addFin_facts st npNamespace
      ("np-approval-" ++ npNamespace ++ "-" ++ npName) _ _ rfl rfl (by simp) hsec0
  | some sec =>
    simp only [Reconcile, hget, hlabel, happ, hname, hns, hhash, hcert, hsec0,
      Bool.not_true, Bool.false_eq_true, if_false]
    exact update_then_addFin_facts st npNamespace
      ("np-approval-" ++ npNamespace ++ "-" ++ npName) sec _ _ hsec0

/-- C8: Grant Materializer idempotence — for every granted CSR (approval
label, approved condition, full cross-reference annotations, non-empty
certificate bytes) and any starting store, running Reconcile twice in
succession leaves the store in the same state as running it once: the
second run overwrites the token with identical data and adds no second
guard. -/
theorem c8_reconcile_idempotent
    (st : Cluster) (reqName : String) (csr : CertificateSigningRequest)
    (npName npNamespace approvalHash : String)
    (hget : getCSR st reqName = some csr)
    (hlabel : (lookupStr csr.labels "networkpolicy.webhook.io/approval").isNone = false)
    (happ : csr.conditions.any (fun c => c.type == CertificateApproved) = true)
    (hname : lookupStr csr.annotations "networkpolicy.webhook.io/name" = some npName)
    (hns : lookupStr csr.annotations "networkpolicy.webhook.io/namespace" = some npNamespace)
    (hhash : lookupStr csr.annotations "networkpolicy.webhook.io/approval-hash"
      = some approvalHash)
    (hcert : (csr.certificate == "") = false) :
    (Reconcile (Reconcile st reqName).state reqName).state = (Reconcile st reqName).state := by
  obtain ⟨y, hcsrs, hsec, hdata, hfin, hall⟩ :=
    reconcile_granted_writes st reqName csr npName npNamespace approvalHash
      hget hlabel happ hname hns hhash hcert
  have hget' : getCSR (Reconcile st reqName).state reqName = some csr := by
    unfold getCSR
    rw [hcsrs]
    exact hget
  rw [reconcile_granted_stable (Reconcile st reqName).state reqName csr
    npName npNamespace approvalHash y hget' hlabel happ hname hns hhash hcert
    hsec hdata hfin hall]

theorem c8_witness :
    (Reconcile (Reconcile ⟨[], [csrA]⟩ "np-approval-default-test-policy").state
        "np-approval-default-test-policy").state
      = (Reconcile ⟨[], [csrA]⟩ "np-approval-default-test-policy").state :=
  c8_reconcile_idempotent ⟨[], [csrA]⟩ "np-approval-default-test-policy" csrA
    "test-policy" "default" (generateNetworkPolicyHash npA)
    (by decide) (by decide) (by decide) (by decide) (by decide) (by decide) (by decide)
